import Mathlib

/-!
Verification development for the TAP tap-trading application.

The definitions below are a shallow embedding of the TypeScript sources:
* `src/utils/probability.ts` — the pricing model (`calculateLeverage`,
  `calculateOptionsProfit`);
* `src/store/tradingStore.ts` — the client position store and its
  win/loss detector (`checkWins`);
* `src/lib/server/db.ts` and `src/app/actions.ts` — the server-side
  ledger (`Database.getUser`/`updateUser`) and the server actions
  `verifyDeposit`, `placeBet`, `requestWithdrawal`, `resolveBet`;
* the client settlement/bet-placement glue in `src/app/page.tsx`.

JavaScript numbers are modelled as rationals (`ℚ`), millisecond
timestamps as integers (`ℤ`), and string identifiers as `String`.
External collaborators (the Solana RPC connection, the Drift venue)
are modelled by explicit outcome parameters: each server action takes
the outcome of its external call as an argument and the embedding
describes what the action does to the persisted state in each case.
-/

/-! ## Pricing model (`src/utils/probability.ts`) -/

/-- JavaScript `Math.round`: rounds half toward positive infinity. -/
def jsRound (x : ℚ) : ℤ := ⌊x + 1/2⌋

/-- Embedding of `calculateLeverage(currentPrice, targetPrice, secondsInFuture,
recentVolatility)` from `src/utils/probability.ts`.

Two JavaScript divisions by zero (`30/0` and `0.005/0`, both `+∞` in JS,
which the surrounding `min`/`max` clamp to `1.2` resp. `1.3`) are made
explicit as separate cases, since `ℚ` has no infinities. -/
def calculateLeverage (currentPrice targetPrice secondsInFuture recentVolatility : ℚ) : ℤ :=
  if currentPrice ≤ 0 ∨ targetPrice ≤ 0 then
    5
  else
    let priceDistance := |targetPrice - currentPrice| / currentPrice
    let timeFactor :=
      if secondsInFuture = 0 then (6/5 : ℚ)
      else max (1/2) (min (6/5) (30 / secondsInFuture))
    let volatilityFactor :=
      if recentVolatility = 0 then (13/10 : ℚ)
      else max (7/10) (min (13/10) ((1/200) / recentVolatility))
    let baseLeverage :=
      if priceDistance < 1/500 then
        5 + (priceDistance / (1/500)) * 5
      else if priceDistance < 1/200 then
        10 + ((priceDistance - 1/500) / (3/1000)) * 10
      else if priceDistance < 1/125 then
        20 + ((priceDistance - 1/200) / (3/1000)) * 15
      else
        35 + min 15 ((priceDistance - 1/125) * 300)
    let adjustedLeverage := baseLeverage * timeFactor * volatilityFactor
    max 5 (min 50 (jsRound adjustedLeverage))

/-- Embedding of `calculateOptionsProfit(betAmount, leverage, priceChangePercent)`
from `src/utils/probability.ts`: `betAmount × leverage × priceChangePercent`. -/
def calculateOptionsProfit (betAmount leverage priceChangePercent : ℚ) : ℚ :=
  betAmount * leverage * priceChangePercent

/-! ## Position store and win/loss detector (`src/store/tradingStore.ts`) -/

inductive PositionStatus where
  | active
  | won
  | lost
deriving DecidableEq

inductive TradeDirection where
  | long
  | short
deriving DecidableEq

/-- The fields of `Position` (from `tradingStore.ts`) that the win/loss
detector and the settlement glue read or write. -/
structure Position where
  id : String
  userId : String
  direction : TradeDirection
  entryPrice : ℚ
  targetPrice : ℚ
  zoneLowerBound : ℚ
  zoneUpperBound : ℚ
  expiryTime : ℤ
  size : ℚ
  betAmount : ℚ
  status : PositionStatus
  txSignature : Option String
  realizedPnL : Option ℚ
  resolvedAt : Option ℤ
  resolvedPrice : Option ℚ
  settledOnChain : Bool
  settlementAttempts : ℕ
deriving DecidableEq

/-- Embedding of `PerformanceStats` from `tradingStore.ts`. -/
structure PerformanceStats where
  totalWins : ℕ
  totalLosses : ℕ
  realizedPnL : ℚ
  winRate : ℚ
  totalVolume : ℚ
deriving DecidableEq

/-- Embedding of `recalcWinRate` from `tradingStore.ts`. -/
def recalcWinRate (s : PerformanceStats) : PerformanceStats :=
  let attempts := s.totalWins + s.totalLosses
  { s with winRate := if attempts > 0 then ((s.totalWins : ℚ) / (attempts : ℚ)) * 100 else 0 }

/-- The slice of the zustand store state that `checkWins` reads and writes. -/
structure TradingState where
  positions : List Position
  stats : PerformanceStats
deriving DecidableEq

/-- Whether `price` lies in the position's zone:
`currentPrice >= Math.min(lower, upper) && currentPrice <= Math.max(lower, upper)`. -/
def priceInZone (pos : Position) (price : ℚ) : Prop :=
  min pos.zoneLowerBound pos.zoneUpperBound ≤ price ∧
    price ≤ max pos.zoneLowerBound pos.zoneUpperBound

instance (pos : Position) (price : ℚ) : Decidable (priceInZone pos price) := by
  unfold priceInZone; infer_instance

/-- The per-position transform performed by the `positions.map` callback
inside `checkWins`: a position is left untouched while it is not active,
while `timeLeftMs = expiryTime - now > 0`, or when its entry price is
invalid; otherwise it is resolved `won` when the price is in the zone
and `lost` otherwise. -/
def resolvePos (now : ℤ) (price : ℚ) (pos : Position) : Position :=
  if pos.status ≠ PositionStatus.active then pos
  else if pos.expiryTime - now > 0 then pos
  else if pos.entryPrice ≤ 0 then pos
  else
    let leverage := if pos.betAmount > 0 then pos.size / pos.betAmount else 0
    let priceChangePercent := |price - pos.entryPrice| / pos.entryPrice
    if priceInZone pos price then
      let profit := pos.betAmount * leverage * priceChangePercent
      { pos with
          status := PositionStatus.won
          realizedPnL := some profit
          resolvedAt := some now
          resolvedPrice := some price }
    else
      { pos with
          status := PositionStatus.lost
          realizedPnL := some (-pos.betAmount)
          resolvedAt := some now
          resolvedPrice := some price }

/-- The corresponding per-position mutation of the running `statsUpdate`
accumulator inside `checkWins`. -/
def resolveStats (now : ℤ) (price : ℚ) (pos : Position) (stats : PerformanceStats) :
    PerformanceStats :=
  if pos.status ≠ PositionStatus.active then stats
  else if pos.expiryTime - now > 0 then stats
  else if pos.entryPrice ≤ 0 then stats
  else
    let leverage := if pos.betAmount > 0 then pos.size / pos.betAmount else 0
    let priceChangePercent := |price - pos.entryPrice| / pos.entryPrice
    if priceInZone pos price then
      let profit := pos.betAmount * leverage * priceChangePercent
      recalcWinRate
        { stats with
            totalWins := stats.totalWins + 1
            realizedPnL := stats.realizedPnL + profit
            totalVolume := stats.totalVolume + pos.betAmount }
    else
      recalcWinRate
        { stats with
            totalLosses := stats.totalLosses + 1
            realizedPnL := stats.realizedPnL + (-pos.betAmount)
            totalVolume := stats.totalVolume + pos.betAmount }

/-- Whether the `checkWins` map callback sets `changed = true` for `pos`. -/
def resolveChanged (now : ℤ) (price : ℚ) (pos : Position) : Bool :=
  if pos.status ≠ PositionStatus.active then false
  else if pos.expiryTime - now > 0 then false
  else if pos.entryPrice ≤ 0 then false
  else true

/-- Embedding of `checkWins(currentPrice)` from `tradingStore.ts`, with `Date.now()`
passed explicitly as `now`.  Mirrors the code: if no position is active,
or the price is invalid (`!currentPrice || currentPrice <= 0`), the `set`
callback returns `{}` and the state is unchanged; likewise when no
position was resolved (`!changed`).  Otherwise the positions are mapped
through the resolution callback and the stats accumulate left to right. -/
def checkWins (currentPrice : ℚ) (now : ℤ) (state : TradingState) : TradingState :=
  if ¬ state.positions.any (fun pos => pos.status == PositionStatus.active) then state
  else if currentPrice ≤ 0 then state
  else
    let updatedPositions := state.positions.map (resolvePos now currentPrice)
    let statsUpdate := state.positions.foldl
      (fun acc pos => resolveStats now currentPrice pos acc) state.stats
    let changed := state.positions.any (resolveChanged now currentPrice)
    if ¬ changed then state
    else { positions := updatedPositions, stats := statsUpdate }

/-! ## Server-side ledger (`src/lib/server/db.ts`) -/

inductive WithdrawalStatus where
  | pending
  | completed
  | failed
deriving DecidableEq

inductive BetResult where
  | win
  | loss
deriving DecidableEq

/-- Embedding of `UserDeposit` from `db.ts`. -/
structure UserDeposit where
  txSignature : String
  amount : ℚ
  timestamp : ℤ
  verified : Bool
  verifiedAt : Option ℤ
deriving DecidableEq

/-- Embedding of `UserWithdrawal` from `db.ts`. -/
structure UserWithdrawal where
  txSignature : String
  amount : ℚ
  timestamp : ℤ
  status : WithdrawalStatus
deriving DecidableEq

/-- Embedding of `UserBet` from `db.ts`, together with the `leverage`/`direction`
fields that `placeBet` stores on the record (the source widens the
record with `as any`). -/
structure UserBet where
  betId : String
  amount : ℚ
  timestamp : ℤ
  leverage : ℚ
  direction : TradeDirection
  result : Option BetResult
  pnl : Option ℚ
  resolvedAt : Option ℤ
  txSignature : Option String
deriving DecidableEq

/-- Embedding of `UserBalance` from `db.ts`. -/
structure UserBalance where
  walletAddress : String
  balance : ℚ
  totalDeposits : ℚ
  totalWithdrawals : ℚ
  totalBets : ℚ
  totalWinnings : ℚ
  deposits : List UserDeposit
  withdrawals : List UserWithdrawal
  bets : List UserBet
  lastUpdated : ℤ
deriving DecidableEq

/-- The persisted `users` map of `db.json`, as an association list. -/
abbrev DB : Type := List (String × UserBalance)

/-- The fresh account record `Database.getUser` creates on first
reference: everything zero / empty. -/
def freshUser (walletAddress : String) (now : ℤ) : UserBalance :=
  { walletAddress := walletAddress
    balance := 0
    totalDeposits := 0
    totalWithdrawals := 0
    totalBets := 0
    totalWinnings := 0
    deposits := []
    withdrawals := []
    bets := []
    lastUpdated := now }

/-- Keyed lookup in the users map. -/
def getAcct : DB → String → Option UserBalance
  | [], _ => none
  | (a, u) :: rest, addr => if a = addr then some u else getAcct rest addr

/-- Keyed write in the users map (`db.users[walletAddress] = updatedUser`). -/
def setUser : DB → String → UserBalance → DB
  | [], addr, u => [(addr, u)]
  | (a, v) :: rest, addr, u =>
      if a = addr then (addr, u) :: rest else (a, v) :: setUser rest addr u

/-- Embedding of `Database.getUser`: returns the stored record, creating (and
persisting) a fresh one when the key is absent. -/
def dbGetUser (db : DB) (addr : String) (now : ℤ) : UserBalance × DB :=
  match getAcct db addr with
  | some u => (u, db)
  | none => (freshUser addr now, setUser db addr (freshUser addr now))

/-- Embedding of `Database.updateUser`: overwrites the record and stamps `lastUpdated`.
The source merges `updates` into the stored record; the callers below
always pass the fully merged record. -/
def dbUpdateUser (db : DB) (addr : String) (u : UserBalance) (now : ℤ) : DB :=
  setUser db addr { u with lastUpdated := now }

/-! ## Server actions (`src/app/actions.ts`) -/

/-- The failure messages the server actions return (`success: false`). -/
inductive ActionError where
  | insufficientBalance
  | depositAlreadyCredited
  | txNotFound
  | noTransferFound
  | amountMismatch
  | tradeExecutionFailed
  | transferFailed
  | betNotFound
  | betAlreadyResolved
  | settlementFailed
deriving DecidableEq

/-- Outcome of the on-chain lookup `verifyDeposit` performs through the
RPC connection: the transaction is missing/failed, contains no USDC
transfer to the universal wallet, or contains one of `actualAmount`. -/
inductive ChainLookup where
  | txMissing
  | noTransfer
  | transfer (actualAmount : ℚ)
deriving DecidableEq

/-- Embedding of `verifyDeposit(walletAddress, txSignature, expectedAmount)` from
`actions.ts`.  The duplicate check runs first and inspects only the
*calling* wallet's deposit list; then the chain lookup, the 1%
amount-tolerance check, and on success the credit is persisted. -/
def verifyDeposit (db : DB) (walletAddress txSignature : String) (expectedAmount : ℚ)
    (chain : ChainLookup) (now : ℤ) : DB × Except ActionError ℚ :=
  let user := (dbGetUser db walletAddress now).1
  let db0 := (dbGetUser db walletAddress now).2
  if user.deposits.any (fun d => d.txSignature == txSignature) then
    (db0, Except.error ActionError.depositAlreadyCredited)
  else
    match chain with
    | ChainLookup.txMissing => (db0, Except.error ActionError.txNotFound)
    | ChainLookup.noTransfer => (db0, Except.error ActionError.noTransferFound)
    | ChainLookup.transfer actualAmount =>
      if |actualAmount - expectedAmount| > expectedAmount * (1/100) then
        (db0, Except.error ActionError.amountMismatch)
      else
        let db1 := dbUpdateUser db0 walletAddress
          { user with
              balance := user.balance + actualAmount
              totalDeposits := user.totalDeposits + actualAmount
              deposits := user.deposits ++
                [{ txSignature := txSignature, amount := actualAmount
                   timestamp := now, verified := true, verifiedAt := some now }] } now
        (db1, Except.ok (user.balance + actualAmount))

/-- The optimistic-debit record `placeBet` writes in its step 1: balance
decremented, `totalBets` incremented, the new bet appended. -/
def betDebitState (user : UserBalance) (betAmount leverage : ℚ) (direction : TradeDirection)
    (betId : String) (now : ℤ) : UserBalance :=
  { user with
      balance := user.balance - betAmount
      totalBets := user.totalBets + betAmount
      bets := user.bets ++
        [{ betId := betId, amount := betAmount, timestamp := now
           leverage := leverage, direction := direction
           result := none, pnl := none, resolvedAt := none, txSignature := none }] }

/-- Embedding of `placeBet(walletAddress, betAmount, targetPrice, leverage, direction)`
from `actions.ts`.  `tradeOutcome` is the result of the external
`driftServer.executeTrade` call: `some txSig` when it returns, `none`
when it throws (the `catch` branch, which refunds the optimistic debit).
As in the source, `targetPrice` is received but never used server-side,
the bet record of a failed placement is not removed, and the bet id is
`` `bet-${Date.now()}` ``. -/
def placeBet (db : DB) (walletAddress : String) (betAmount targetPrice leverage : ℚ)
    (direction : TradeDirection) (tradeOutcome : Option String) (now : ℤ) :
    DB × Except ActionError String :=
  let user := (dbGetUser db walletAddress now).1
  let db0 := (dbGetUser db walletAddress now).2
  if user.balance < betAmount then
    (db0, Except.error ActionError.insufficientBalance)
  else
    let betId := "bet-" ++ toString now
    let db1 := dbUpdateUser db0 walletAddress
      (betDebitState user betAmount leverage direction betId now) now
    match tradeOutcome with
    | some txSig =>
        let updatedUser := (dbGetUser db1 walletAddress now).1
        let db2 := (dbGetUser db1 walletAddress now).2
        let updatedBets := updatedUser.bets.map fun b =>
          if b.betId = betId then { b with txSignature := some txSig } else b
        (dbUpdateUser db2 walletAddress { updatedUser with bets := updatedBets } now,
         Except.ok betId)
    | none =>
        let currentUser := (dbGetUser db1 walletAddress now).1
        let db2 := (dbGetUser db1 walletAddress now).2
        (dbUpdateUser db2 walletAddress
          { currentUser with
              balance := currentUser.balance + betAmount
              totalBets := currentUser.totalBets - betAmount } now,
         Except.error ActionError.tradeExecutionFailed)

/-- The pending-withdrawal record `requestWithdrawal` writes in its
step 1: balance debited, `totalWithdrawals` incremented, a `pending`
withdrawal appended under the temporary id. -/
def withdrawalDebitState (user : UserBalance) (amount : ℚ) (txId : String) (now : ℤ) :
    UserBalance :=
  { user with
      balance := user.balance - amount
      totalWithdrawals := user.totalWithdrawals + amount
      withdrawals := user.withdrawals ++
        [{ txSignature := txId, amount := amount, timestamp := now
           status := WithdrawalStatus.pending }] }

/-- Embedding of `requestWithdrawal(walletAddress, amount)` from `actions.ts`.
`transferOutcome` is the result of the external USDC transfer:
`some txSig` when it confirms, `none` when any step of it throws.
As in the source, the `catch` branch refunds `balance` and
`totalWithdrawals` but does not touch the `withdrawals` array. -/
def requestWithdrawal (db : DB) (walletAddress : String) (amount : ℚ)
    (transferOutcome : Option String) (now : ℤ) : DB × Except ActionError String :=
  let user := (dbGetUser db walletAddress now).1
  let db0 := (dbGetUser db walletAddress now).2
  if user.balance < amount then
    (db0, Except.error ActionError.insufficientBalance)
  else
    let txId := "withdrawal-" ++ toString now
    let db1 := dbUpdateUser db0 walletAddress (withdrawalDebitState user amount txId now) now
    match transferOutcome with
    | some txSig =>
        let currentUser := (dbGetUser db1 walletAddress now).1
        let db2 := (dbGetUser db1 walletAddress now).2
        let updatedWithdrawals := currentUser.withdrawals.map fun w =>
          if w.txSignature = txId then
            { w with txSignature := txSig, status := WithdrawalStatus.completed }
          else w
        (dbUpdateUser db2 walletAddress { currentUser with withdrawals := updatedWithdrawals } now,
         Except.ok txSig)
    | none =>
        let currentUser := (dbGetUser db1 walletAddress now).1
        let db2 := (dbGetUser db1 walletAddress now).2
        (dbUpdateUser db2 walletAddress
          { currentUser with
              balance := currentUser.balance + amount
              totalWithdrawals := currentUser.totalWithdrawals - amount } now,
         Except.error ActionError.transferFailed)

/-- Embedding of `bets.findIndex(b => b.betId === betId)` together with the record it
finds, as an index/record pair. -/
def findBet : List UserBet → String → Option (ℕ × UserBet)
  | [], _ => none
  | b :: bs, betId =>
      if b.betId = betId then some (0, b)
      else (findBet bs betId).map fun p => (p.1 + 1, p.2)

/-- Embedding of `resolveBet(walletAddress, betId, pnl, isWin)` from `actions.ts`.
`closeOutcome` is whether the external `closePositionByNotional` call
returns (`true`) or throws (`false`); in the source that call happens
*after* the ledger update, and only when `bet.leverage && bet.direction`
is truthy, so a thrown close yields `success:false` while the ledger
update persists. -/
def resolveBet (db : DB) (walletAddress betId : String) (pnl : ℚ) (isWin : Bool)
    (closeOutcome : Bool) (now : ℤ) : DB × Except ActionError ℚ :=
  let user := (dbGetUser db walletAddress now).1
  let db0 := (dbGetUser db walletAddress now).2
  match findBet user.bets betId with
  | none => (db0, Except.error ActionError.betNotFound)
  | some (betIndex, bet) =>
    if bet.result.isSome then
      (db0, Except.error ActionError.betAlreadyResolved)
    else
      let newBalance :=
        if isWin ∧ pnl > 0 then user.balance + (bet.amount + pnl) else user.balance
      let newTotalWinnings :=
        if isWin ∧ pnl > 0 then user.totalWinnings + pnl else user.totalWinnings
      let updatedBets := user.bets.set betIndex
        { bet with
            result := some (if isWin then BetResult.win else BetResult.loss)
            pnl := some (if isWin then pnl else -bet.amount)
            resolvedAt := some now }
      let db1 := dbUpdateUser db0 walletAddress
        { user with
            balance := newBalance
            totalWinnings := newTotalWinnings
            bets := updatedBets } now
      if bet.leverage ≠ 0 then
        if closeOutcome then (db1, Except.ok newBalance)
        else (db1, Except.error ActionError.settlementFailed)
      else (db1, Except.ok newBalance)

/-! ## Client glue (`src/app/page.tsx`) -/

/-- Embedding of `addPosition` from the store: prepends the new position. -/
def addPosition (st : TradingState) (pos : Position) : TradingState :=
  { st with positions := pos :: st.positions }

/-- The tail of `handlePlaceBet` in `page.tsx`: the freshly built
position is added to the store only when the server action succeeded;
on `success:false` the handler throws before `addPosition`, so the
store is untouched. -/
def handlePlaceBet (st : TradingState) (result : Except ActionError String)
    (pos : Position) : TradingState :=
  match result with
  | Except.ok _ => addPosition st pos
  | Except.error _ => st

/-- The `needsSettlement` filter of the settlement sweep in `page.tsx`:
resolved, not yet settled on chain, placed for real, fewer than 5
attempts. -/
def needsSettlement (positions : List Position) : List Position :=
  positions.filter fun pos =>
    (pos.status == PositionStatus.won || pos.status == PositionStatus.lost) &&
      !pos.settledOnChain && pos.txSignature.isSome && pos.settlementAttempts < 5

/-- The `updatePosition` call made after a successful `resolveBet`:
marks the position settled on chain. -/
def markSettled (pos : Position) : Position :=
  { pos with settledOnChain := true }

/-! ## Helper lemmas about the users map -/

theorem getAcct_setUser_self (db : DB) (addr : String) (u : UserBalance) :
    getAcct (setUser db addr u) addr = some u := by
  induction db with
  | nil => simp [setUser, getAcct]
  | cons p rest ih =>
      obtain ⟨a, v⟩ := p
      by_cases h : a = addr
      · simp [setUser, h, getAcct]
      · simp [setUser, h, getAcct, ih]

theorem getAcct_setUser_ne (db : DB) (addr other : String) (u : UserBalance)
    (h : addr ≠ other) : getAcct (setUser db addr u) other = getAcct db other := by
  induction db with
  | nil => simp [setUser, getAcct, h]
  | cons p rest ih =>
      obtain ⟨a, v⟩ := p
      by_cases ha : a = addr
      · subst ha; simp [setUser, getAcct, h]
      · simp [setUser, ha, getAcct, ih]

theorem mem_setUser {db : DB} {addr : String} {u : UserBalance} {q : String × UserBalance}
    (hq : q ∈ setUser db addr u) : q = (addr, u) ∨ q ∈ db := by
  induction db with
  | nil => simpa [setUser] using hq
  | cons p rest ih =>
      obtain ⟨a, v⟩ := p
      by_cases h : a = addr
      · simp only [setUser, if_pos h, List.mem_cons] at hq
        rcases hq with h1 | h2
        · exact Or.inl h1
        · exact Or.inr (List.mem_cons_of_mem _ h2)
      · simp only [setUser, if_neg h, List.mem_cons] at hq
        rcases hq with h1 | h2
        · exact Or.inr (h1 ▸ List.mem_cons_self _ _)
        · rcases ih h2 with h3 | h4
          · exact Or.inl h3
          · exact Or.inr (List.mem_cons_of_mem _ h4)

theorem getAcct_mem {db : DB} {addr : String} {u : UserBalance}
    (h : getAcct db addr = some u) : (addr, u) ∈ db := by
  induction db with
  | nil => simp [getAcct] at h
  | cons p rest ih =>
      obtain ⟨a, v⟩ := p
      by_cases ha : a = addr
      · subst ha
        simp only [getAcct, if_pos, eq_self_iff_true, if_true, Option.some.injEq] at h
        subst h
        exact List.mem_cons_self _ _
      · simp only [getAcct, if_neg ha] at h
        exact List.mem_cons_of_mem _ (ih h)

/-! ## Helper lemmas about `findBet` -/

theorem findBet_mem : ∀ {l : List UserBet} {betId : String} {i : ℕ} {b : UserBet},
    findBet l betId = some (i, b) → b ∈ l := by
  intro l
  induction l with
  | nil => intro betId i b h; simp [findBet] at h
  | cons x xs ih =>
      intro betId i b h
      by_cases hx : x.betId = betId
      · simp only [findBet, if_pos hx, Option.some.injEq, Prod.mk.injEq] at h
        exact h.2 ▸ List.mem_cons_self _ _
      · simp only [findBet, if_neg hx, Option.map_eq_some'] at h
        obtain ⟨⟨j, c⟩, hj, hjc⟩ := h
        obtain ⟨-, hc⟩ := Prod.mk.injEq .. ▸ hjc
        exact List.mem_cons_of_mem _ (hc ▸ ih hj)

theorem findBet_betId : ∀ {l : List UserBet} {betId : String} {i : ℕ} {b : UserBet},
    findBet l betId = some (i, b) → b.betId = betId := by
  intro l
  induction l with
  | nil => intro betId i b h; simp [findBet] at h
  | cons x xs ih =>
      intro betId i b h
      by_cases hx : x.betId = betId
      · simp only [findBet, if_pos hx, Option.some.injEq, Prod.mk.injEq] at h
        exact h.2 ▸ hx
      · simp only [findBet, if_neg hx, Option.map_eq_some'] at h
        obtain ⟨⟨j, c⟩, hj, hjc⟩ := h
        obtain ⟨-, hc⟩ := Prod.mk.injEq .. ▸ hjc
        exact hc ▸ ih hj

theorem findBet_set {b' : UserBet} : ∀ {l : List UserBet} {betId : String} {i : ℕ} {b : UserBet},
    findBet l betId = some (i, b) → b'.betId = b.betId →
    findBet (l.set i b') betId = some (i, b') := by
  intro l
  induction l with
  | nil => intro betId i b h _; simp [findBet] at h
  | cons x xs ih =>
      intro betId i b h hb
      by_cases hx : x.betId = betId
      · simp only [findBet, if_pos hx, Option.some.injEq, Prod.mk.injEq] at h
        obtain ⟨hi, hxb⟩ := h
        subst hi
        simp [List.set, findBet, hb.trans (hxb ▸ hx)]
      · simp only [findBet, if_neg hx, Option.map_eq_some'] at h
        obtain ⟨⟨j, c⟩, hj, hjc⟩ := h
        obtain ⟨hji, hc⟩ := Prod.mk.injEq .. ▸ hjc
        subst hc
        rw [← hji]
        simp [List.set, findBet, hx, ih hj hb]

/-! ## The balance/bet-amount invariant -/

/-- An account record with a non-negative balance whose recorded bets all
have non-negative amounts. -/
def GoodUser (u : UserBalance) : Prop :=
  0 ≤ u.balance ∧ ∀ b ∈ u.bets, 0 ≤ b.amount

/-- Every account in the users map is good. -/
def LedgerInv (db : DB) : Prop :=
  ∀ q ∈ db, GoodUser q.2

theorem goodUser_freshUser (addr : String) (now : ℤ) : GoodUser (freshUser addr now) := by
  constructor
  · simp [freshUser]
  · intro b hb; simp [freshUser] at hb

theorem ledgerInv_setUser {db : DB} {addr : String} {u : UserBalance}
    (h : LedgerInv db) (hu : GoodUser u) : LedgerInv (setUser db addr u) := by
  intro q hq
  rcases mem_setUser hq with h1 | h2
  · rw [h1]; exact hu
  · exact h q h2

theorem goodUser_lastUpdated {u : UserBalance} (h : GoodUser u) (now : ℤ) :
    GoodUser { u with lastUpdated := now } := h

theorem ledgerInv_dbUpdateUser {db : DB} {addr : String} {u : UserBalance} {now : ℤ}
    (h : LedgerInv db) (hu : GoodUser u) : LedgerInv (dbUpdateUser db addr u now) :=
  ledgerInv_setUser h (goodUser_lastUpdated hu now)

theorem goodUser_dbGetUser_fst {db : DB} (addr : String) (now : ℤ) (h : LedgerInv db) :
    GoodUser (dbGetUser db addr now).1 := by
  unfold dbGetUser
  cases hg : getAcct db addr with
  | some u => exact h (addr, u) (getAcct_mem hg)
  | none => exact goodUser_freshUser addr now

theorem ledgerInv_dbGetUser_snd {db : DB} (addr : String) (now : ℤ) (h : LedgerInv db) :
    LedgerInv (dbGetUser db addr now).2 := by
  unfold dbGetUser
  cases hg : getAcct db addr with
  | some u => exact h
  | none => exact ledgerInv_setUser h (goodUser_freshUser addr now)

theorem getAcct_dbGetUser_snd {db : DB} (addr : String) (now : ℤ) :
    getAcct (dbGetUser db addr now).2 addr = some (dbGetUser db addr now).1 := by
  unfold dbGetUser
  cases hg : getAcct db addr with
  | some u => exact hg
  | none => exact getAcct_setUser_self _ _ _

/-! ## Resolution helper lemmas -/

theorem resolvePos_of_not_changed {now : ℤ} {price : ℚ} {pos : Position}
    (h : resolveChanged now price pos = false) : resolvePos now price pos = pos := by
  unfold resolveChanged at h
  unfold resolvePos
  split_ifs at h ⊢ <;> simp_all

theorem map_resolvePos_id (now : ℤ) (price : ℚ) :
    ∀ l : List Position, (∀ pos ∈ l, resolveChanged now price pos = false) →
      l.map (resolvePos now price) = l := by
  intro l
  induction l with
  | nil => intro _; rfl
  | cons a t ih =>
      intro h
      simp only [List.map_cons]
      rw [resolvePos_of_not_changed (h a (List.mem_cons_self _ _)),
        ih (fun pos hp => h pos (List.mem_cons_of_mem _ hp))]

/-! ## Claim theorems -/

/-- C9: `calculateLeverage` always returns an integer in `[5, 50]`; when
`currentPrice ≤ 0` or `targetPrice ≤ 0` it returns the floor `5`; and it
is deterministic (identical inputs give identical output). -/
theorem calculateLeverage_bounds :
    (∀ cp tp s v : ℚ, 5 ≤ calculateLeverage cp tp s v ∧ calculateLeverage cp tp s v ≤ 50) ∧
    (∀ cp tp s v : ℚ, cp ≤ 0 ∨ tp ≤ 0 → calculateLeverage cp tp s v = 5) ∧
    (∀ cp tp s v cp2 tp2 s2 v2 : ℚ, cp = cp2 → tp = tp2 → s = s2 → v = v2 →
      calculateLeverage cp tp s v = calculateLeverage cp2 tp2 s2 v2) := by
  refine ⟨fun cp tp s v => ?_, fun cp tp s v h => ?_, ?_⟩
  · by_cases h : cp ≤ 0 ∨ tp ≤ 0
    · simp only [calculateLeverage, if_pos h]
      exact ⟨le_refl 5, by norm_num⟩
    · simp only [calculateLeverage, if_neg h]
      exact ⟨le_max_left _ _, max_le (by norm_num) (min_le_left _ _)⟩
  · simp only [calculateLeverage, if_pos h]
  · intro cp tp s v cp2 tp2 s2 v2 h1 h2 h3 h4
    rw [h1, h2, h3, h4]

/-- Witness for C9 at concrete inputs, including the spec's example
scenario 1 (`currentPrice=100, targetPrice=100.1, 30s, vol=0.0035`) and
an invalid price. -/
theorem calculateLeverage_bounds_witness :
    (5 ≤ calculateLeverage 100 (1001/10) 30 (7/2000) ∧
      calculateLeverage 100 (1001/10) 30 (7/2000) ≤ 50) ∧
    calculateLeverage (-1) 5 30 (7/2000) = 5 :=
  ⟨calculateLeverage_bounds.1 100 (1001/10) 30 (7/2000),
    calculateLeverage_bounds.2.1 (-1) 5 30 (7/2000) (Or.inl (by norm_num))⟩

/-- C10 (frame): when `checkWins` is called with a non-positive price, or
when no position is active, the store state — every position's `status`,
`realizedPnL`, `resolvedAt`, `resolvedPrice` and all stats fields — is
completely unchanged, even for active positions already past expiry. -/
theorem checkWins_invalid_price_frame (p : ℚ) (now : ℤ) (st : TradingState)
    (h : p ≤ 0 ∨ ∀ pos ∈ st.positions, pos.status ≠ PositionStatus.active) :
    checkWins p now st = st := by
  unfold checkWins
  by_cases ha : st.positions.any (fun pos => pos.status == PositionStatus.active) = true
  · rcases h with hp | hnone
    · rw [if_neg (by simp [ha]), if_pos hp]
    · exfalso
      rw [List.any_eq_true] at ha
      obtain ⟨pos, hmem, hact⟩ := ha
      exact hnone pos hmem (by simpa using hact)
  · rw [if_pos (by simpa using ha)]

/-- Witness for C10: an already-expired active position (expiry `-5`,
observed at time `0`) stays untouched when the price sample is `0`. -/
theorem checkWins_invalid_price_frame_witness :
    checkWins 0 0
        ⟨[{ id := "pos-frame", userId := "A", direction := TradeDirection.long
            entryPrice := 100, targetPrice := 100
            zoneLowerBound := 99, zoneUpperBound := 101
            expiryTime := -5, size := 350, betAmount := 10
            status := PositionStatus.active, txSignature := some "sig"
            realizedPnL := none, resolvedAt := none, resolvedPrice := none
            settledOnChain := false, settlementAttempts := 0 }], ⟨0, 0, 0, 0, 0⟩⟩
      = ⟨[{ id := "pos-frame", userId := "A", direction := TradeDirection.long
            entryPrice := 100, targetPrice := 100
            zoneLowerBound := 99, zoneUpperBound := 101
            expiryTime := -5, size := 350, betAmount := 10
            status := PositionStatus.active, txSignature := some "sig"
            realizedPnL := none, resolvedAt := none, resolvedPrice := none
            settledOnChain := false, settlementAttempts := 0 }], ⟨0, 0, 0, 0, 0⟩⟩ :=
  checkWins_invalid_price_frame 0 0 _ (Or.inl (le_refl 0))

/-- An active, not-yet-expired position whose zone `[99,101]` contains
the price `100`: the material for the C1 counterexample. -/
def c1Pos : Position :=
  { id := "pos-c1", userId := "A", direction := TradeDirection.long
    entryPrice := 100, targetPrice := 100
    zoneLowerBound := 99, zoneUpperBound := 101
    expiryTime := 1000, size := 350, betAmount := 10
    status := PositionStatus.active, txSignature := some "sig"
    realizedPnL := none, resolvedAt := none, resolvedPrice := none
    settledOnChain := false, settlementAttempts := 0 }

/-- C1 counterexample: at time `0` the position `c1Pos` is active, its
expiry (`1000`) has not passed, and the price sample `100` lies inside
its zone — yet `checkWins` leaves the whole state unchanged (the
position stays `active`), because the source skips every position with
`timeLeftMs > 0` before looking at the zone.  The claim's assertion that
the first in-zone price sample resolves the position `Won` whether or
not it has expired is therefore false. -/
theorem checkWins_pre_expiry_zone_cex :
    c1Pos.status = PositionStatus.active ∧
    priceInZone c1Pos 100 ∧
    (0 : ℤ) < c1Pos.expiryTime ∧
    checkWins 100 0 ⟨[c1Pos], ⟨0, 0, 0, 0, 0⟩⟩ = ⟨[c1Pos], ⟨0, 0, 0, 0, 0⟩⟩ := by
  refine ⟨rfl, ⟨by norm_num [priceInZone, c1Pos], by norm_num [priceInZone, c1Pos]⟩,
    by norm_num [c1Pos], ?_⟩
  rfl

/-- C1 (amended): on a price sample with a positive price and at least
one active position, `checkWins` sends every position through
`resolvePos`; an active position with a valid entry price is left
completely untouched whenever `now < expiryTime` — even if the price is
inside the zone — and at an evaluation with `expiryTime ≤ now` it
becomes `won` exactly when the price lies within
`[min(zoneLow, zoneHigh), max(zoneLow, zoneHigh)]`, `lost` otherwise.
The expiry check gates the zone check, not the other way around. -/
theorem checkWins_expiry_gate (p : ℚ) (now : ℤ) (st : TradingState)
    (hactive : st.positions.any (fun pos => pos.status == PositionStatus.active) = true)
    (hp : 0 < p) :
    (checkWins p now st).positions = st.positions.map (resolvePos now p) ∧
    ∀ pos : Position, pos.status = PositionStatus.active → 0 < pos.entryPrice →
      (now < pos.expiryTime → resolvePos now p pos = pos) ∧
      (pos.expiryTime ≤ now →
        ((resolvePos now p pos).status = PositionStatus.won ↔ priceInZone pos p) ∧
        ((resolvePos now p pos).status = PositionStatus.lost ↔ ¬ priceInZone pos p)) := by
  constructor
  · simp only [checkWins]
    rw [if_neg (by simp [hactive]), if_neg (not_le.mpr hp)]
    by_cases hc : st.positions.any (resolveChanged now p) = true
    · rw [if_neg (by simp [hc])]
    · rw [if_pos (by simpa using hc)]
      refine (map_resolvePos_id now p st.positions ?_).symm
      intro pos hmem
      rcases Bool.eq_false_or_eq_true (resolveChanged now p pos) with ht | hf
      · exact absurd (List.any_eq_true.mpr ⟨pos, hmem, ht⟩) hc
      · exact hf
  · intro pos hact hentry
    constructor
    · intro hlt
      simp only [resolvePos]
      rw [if_neg (by simp [hact]), if_pos (by omega)]
    · intro hle
      simp only [resolvePos]
      rw [if_neg (by simp [hact]), if_neg (by omega), if_neg (not_le.mpr hentry)]
      by_cases hz : priceInZone pos p
      · rw [if_pos hz]; simp [hz]
      · rw [if_neg hz]; simp [hz]

/-- Witness for C1's amended theorem: an expired position whose zone
contains the sample price is resolved `won` at time `5`. -/
theorem checkWins_expiry_gate_witness :
    (checkWins 100 5 ⟨[{ c1Pos with expiryTime := 0 }], ⟨0, 0, 0, 0, 0⟩⟩).positions
        = [resolvePos 5 100 { c1Pos with expiryTime := 0 }] ∧
      (resolvePos 5 100 { c1Pos with expiryTime := 0 }).status = PositionStatus.won := by
  have h := checkWins_expiry_gate 100 5 ⟨[{ c1Pos with expiryTime := 0 }], ⟨0, 0, 0, 0, 0⟩⟩
    (by decide) (by norm_num)
  refine ⟨by simpa using h.1, ?_⟩
  exact ((h.2 { c1Pos with expiryTime := 0 } (by rfl) (by norm_num [c1Pos])).2
      (by norm_num)).1.mpr
    ⟨by norm_num [priceInZone, c1Pos], by norm_num [priceInZone, c1Pos]⟩

/-- The balance the ledger reports for `addr`: `0` for an absent account,
matching the fresh record `Database.getUser` would create. -/
def acctBalance (db : DB) (addr : String) : ℚ :=
  match getAcct db addr with
  | some u => u.balance
  | none => 0

/-- The `totalWithdrawals` field reported for `addr` (0 when absent). -/
def acctTotalWithdrawals (db : DB) (addr : String) : ℚ :=
  match getAcct db addr with
  | some u => u.totalWithdrawals
  | none => 0

/-- The `totalBets` field reported for `addr` (0 when absent). -/
def acctTotalBets (db : DB) (addr : String) : ℚ :=
  match getAcct db addr with
  | some u => u.totalBets
  | none => 0

/-- The `totalWinnings` field reported for `addr` (0 when absent). -/
def acctTotalWinnings (db : DB) (addr : String) : ℚ :=
  match getAcct db addr with
  | some u => u.totalWinnings
  | none => 0

/-- The early `'Bet already resolved'` guard of `resolveBet`: when the
bet record already carries a `result`, the action fails and the users
map is returned untouched. -/
theorem resolveBet_already_resolved {db : DB} {addr betId : String} {pnl : ℚ}
    {isWin closeOutcome : Bool} {now : ℤ} {u : UserBalance} {i : ℕ} {bet : UserBet}
    (hu : getAcct db addr = some u) (hfind : findBet u.bets betId = some (i, bet))
    (hres : bet.result.isSome) :
    resolveBet db addr betId pnl isWin closeOutcome now
      = (db, Except.error ActionError.betAlreadyResolved) := by
  simp only [resolveBet, dbGetUser, hu, hfind]
  simp [hres]

/-- The users map `resolveBet` leaves behind when it gets past its
guards: the single updated account record. -/
theorem resolveBet_result_fst {db : DB} {addr betId : String} {pnl : ℚ}
    {isWin closeOutcome : Bool} {now : ℤ} {u : UserBalance} {i : ℕ} {bet : UserBet}
    (hu : getAcct db addr = some u) (hfind : findBet u.bets betId = some (i, bet))
    (hres : bet.result = none) :
    (resolveBet db addr betId pnl isWin closeOutcome now).1
      = dbUpdateUser db addr
          { u with
              balance := if isWin ∧ pnl > 0 then u.balance + (bet.amount + pnl) else u.balance
              totalWinnings :=
                if isWin ∧ pnl > 0 then u.totalWinnings + pnl else u.totalWinnings
              bets := u.bets.set i
                { bet with
                    result := some (if isWin then BetResult.win else BetResult.loss)
                    pnl := some (if isWin then pnl else -bet.amount)
                    resolvedAt := some now } } now := by
  simp only [resolveBet, dbGetUser, hu, hfind, hres]
  rw [if_neg (by simp)]
  split_ifs <;> rfl

/-- C2: at-most-once settlement.  (a) When the bet record for `betId`
already carries a `result`, `resolveBet` fails with
`'Bet already resolved'` and leaves the users map — balance and bet
record included — untouched.  (b) After any `resolveBet` call that gets
past the guard (so the credit, if any, is applied), every further
`resolveBet` call for the same bet fails that way and changes nothing,
so the balance is credited at most once per bet.  (c) A position already
marked `settledOnChain` is never selected for settlement again. -/
theorem resolveBet_at_most_once (db : DB) (addr betId : String) (pnl : ℚ)
    (isWin closeOutcome : Bool) (now : ℤ) (u : UserBalance)
    (hu : getAcct db addr = some u) :
    (∀ (i : ℕ) (bet : UserBet), findBet u.bets betId = some (i, bet) → bet.result.isSome →
      resolveBet db addr betId pnl isWin closeOutcome now
        = (db, Except.error ActionError.betAlreadyResolved)) ∧
    (∀ (i : ℕ) (bet : UserBet), findBet u.bets betId = some (i, bet) → bet.result = none →
      ∀ (pnl2 : ℚ) (isWin2 closeOutcome2 : Bool) (now2 : ℤ),
        resolveBet (resolveBet db addr betId pnl isWin closeOutcome now).1 addr betId
            pnl2 isWin2 closeOutcome2 now2
          = ((resolveBet db addr betId pnl isWin closeOutcome now).1,
              Except.error ActionError.betAlreadyResolved)) ∧
    (∀ (l : List Position) (pos : Position), pos.settledOnChain = true →
      pos ∉ needsSettlement l) := by
  refine ⟨fun i bet hfind hres => resolveBet_already_resolved hu hfind hres, ?_, ?_⟩
  · intro i bet hfind hres pnl2 isWin2 closeOutcome2 now2
    rw [resolveBet_result_fst hu hfind hres]
    exact resolveBet_already_resolved (getAcct_setUser_self _ _ _)
      (findBet_set hfind rfl) (by simp)
  · intro l pos hset
    simp [needsSettlement, List.mem_filter, hset]

/-- The concrete already-resolved bet used in the C2 witness. -/
def c2Bet : UserBet :=
  { betId := "bet-1", amount := 10, timestamp := 0
    leverage := 35, direction := TradeDirection.long
    result := some BetResult.win, pnl := some (21/10)
    resolvedAt := some 1, txSignature := some "t" }

/-- The concrete account used in the C2 witness. -/
def c2User : UserBalance :=
  { walletAddress := "A", balance := 100, totalDeposits := 100
    totalWithdrawals := 0, totalBets := 10, totalWinnings := 21/10
    deposits := [], withdrawals := [], bets := [c2Bet], lastUpdated := 0 }

/-- Witness for C2: a concrete single-user map whose only bet is already
resolved; `resolveBet` fails and returns the map unchanged. -/
theorem resolveBet_at_most_once_witness :
    resolveBet [("A", c2User)] "A" "bet-1" 5 true true 7
      = ([("A", c2User)], Except.error ActionError.betAlreadyResolved) :=
  (resolveBet_at_most_once [("A", c2User)] "A" "bet-1" 5 true true 7 c2User rfl).1
    0 c2Bet rfl rfl


/-- C3, evaluated at the failing input: starting from an empty users
map, `"sig-1"` is credited to `walletA`; resubmitting the *same*
transaction signature for a *different* account `walletB` succeeds as
well, and both balances end up credited with 100 — the duplicate check
of `verifyDeposit` inspects only the calling wallet's own deposit list
(a third attempt for `walletA` itself is indeed rejected).  The
system-wide replay-rejection invariant claimed by the spec is false for
the code as written. -/
theorem verifyDeposit_cross_account_replay :
    (verifyDeposit [] "walletA" "sig-1" 100 (ChainLookup.transfer 100) 1).2
        = Except.ok 100 ∧
    (verifyDeposit (verifyDeposit [] "walletA" "sig-1" 100 (ChainLookup.transfer 100) 1).1
        "walletB" "sig-1" 100 (ChainLookup.transfer 100) 2).2 = Except.ok 100 ∧
    acctBalance
        (verifyDeposit (verifyDeposit [] "walletA" "sig-1" 100 (ChainLookup.transfer 100) 1).1
          "walletB" "sig-1" 100 (ChainLookup.transfer 100) 2).1 "walletA" = 100 ∧
    acctBalance
        (verifyDeposit (verifyDeposit [] "walletA" "sig-1" 100 (ChainLookup.transfer 100) 1).1
          "walletB" "sig-1" 100 (ChainLookup.transfer 100) 2).1 "walletB" = 100 ∧
    (verifyDeposit
        (verifyDeposit (verifyDeposit [] "walletA" "sig-1" 100 (ChainLookup.transfer 100) 1).1
          "walletB" "sig-1" 100 (ChainLookup.transfer 100) 2).1
        "walletA" "sig-1" 100 (ChainLookup.transfer 100) 3).2
      = Except.error ActionError.depositAlreadyCredited := by
  have hAB : ¬ ("walletA" = "walletB") := by decide
  have hBA : ¬ ("walletB" = "walletA") := by decide
  refine ⟨?_, ?_, ?_, ?_, ?_⟩ <;>
    norm_num [verifyDeposit, dbGetUser, getAcct, setUser, dbUpdateUser, freshUser, acctBalance,
      hAB, hBA]

/-- C5: whenever the external transfer of a withdrawal fails (outcome
`none`), `requestWithdrawal` returns with the account's `balance` and
`totalWithdrawals` equal to their pre-call values — the pending debit is
fully rolled back before failure is reported. -/
theorem requestWithdrawal_rollback (db : DB) (addr : String) (amount : ℚ) (now : ℤ) :
    acctBalance (requestWithdrawal db addr amount none now).1 addr = acctBalance db addr ∧
    acctTotalWithdrawals (requestWithdrawal db addr amount none now).1 addr
      = acctTotalWithdrawals db addr ∧
    ∃ e, (requestWithdrawal db addr amount none now).2 = Except.error e := by
  cases hg : getAcct db addr with
  | some u =>
      by_cases hbal : u.balance < amount
      · refine ⟨?_, ?_, ⟨ActionError.insufficientBalance, ?_⟩⟩ <;>
          simp [requestWithdrawal, dbGetUser, hg, hbal, acctBalance, acctTotalWithdrawals]
      · refine ⟨?_, ?_, ⟨ActionError.transferFailed, ?_⟩⟩ <;>
          simp [requestWithdrawal, dbGetUser, hg, hbal, acctBalance, acctTotalWithdrawals,
            dbUpdateUser, withdrawalDebitState, getAcct_setUser_self]
  | none =>
      by_cases hbal : (0 : ℚ) < amount
      · refine ⟨?_, ?_, ⟨ActionError.insufficientBalance, ?_⟩⟩ <;>
          simp [requestWithdrawal, dbGetUser, hg, freshUser, hbal, acctBalance,
            acctTotalWithdrawals, getAcct_setUser_self, dbUpdateUser, withdrawalDebitState]
      · refine ⟨?_, ?_, ⟨ActionError.transferFailed, ?_⟩⟩ <;>
          simp [requestWithdrawal, dbGetUser, hg, freshUser, hbal, acctBalance,
            acctTotalWithdrawals, getAcct_setUser_self, dbUpdateUser, withdrawalDebitState]

/-- The concrete funded account used for the C6 failing input. -/
def c6User : UserBalance :=
  { walletAddress := "A", balance := 100, totalDeposits := 100, totalWithdrawals := 0
    totalBets := 0, totalWinnings := 0, deposits := [], withdrawals := [], bets := []
    lastUpdated := 0 }

/-- C6, evaluated at the failing input: a withdrawal of 50 from a
balance of 100 whose external transfer fails.  The balance is refunded,
but the withdrawal record appended with status `pending` is left with
status `pending` — the `catch` branch of `requestWithdrawal` never
marks it `failed`, contradicting the claimed `cancelWithdrawal`
semantics. -/
theorem requestWithdrawal_failed_transfer_leaves_pending :
    (requestWithdrawal [("A", c6User)] "A" 50 none 5).2
      = Except.error ActionError.transferFailed ∧
    (getAcct (requestWithdrawal [("A", c6User)] "A" 50 none 5).1 "A").map
        UserBalance.withdrawals
      = some [{ txSignature := "withdrawal-5", amount := 50, timestamp := 5
                status := WithdrawalStatus.pending }] ∧
    acctBalance (requestWithdrawal [("A", c6User)] "A" 50 none 5).1 "A" = 100 := by
  refine ⟨?_, ?_, ?_⟩ <;>
    norm_num [requestWithdrawal, dbGetUser, getAcct, setUser, dbUpdateUser,
      withdrawalDebitState, freshUser, acctBalance, c6User]
  decide

/-- C7: when the external trade placement fails (outcome `none`),
`placeBet` reports failure, the account's `balance` and `totalBets`
equal their pre-call values when it returns (the optimistic debit is
fully refunded), and the client handler adds no position to the store —
so no position is ever exposed as `active` for that bet. -/
theorem placeBet_refund_on_failure (db : DB) (addr : String)
    (betAmount targetPrice leverage : ℚ) (direction : TradeDirection) (now : ℤ)
    (st : TradingState) (pos : Position) :
    acctBalance (placeBet db addr betAmount targetPrice leverage direction none now).1 addr
      = acctBalance db addr ∧
    acctTotalBets (placeBet db addr betAmount targetPrice leverage direction none now).1 addr
      = acctTotalBets db addr ∧
    (∃ e, (placeBet db addr betAmount targetPrice leverage direction none now).2
      = Except.error e) ∧
    handlePlaceBet st (placeBet db addr betAmount targetPrice leverage direction none now).2 pos
      = st := by
  cases hg : getAcct db addr with
  | some u =>
      by_cases hbal : u.balance < betAmount
      · refine ⟨?_, ?_, ⟨ActionError.insufficientBalance, ?_⟩, ?_⟩ <;>
          simp [placeBet, dbGetUser, hg, hbal, acctBalance, acctTotalBets, handlePlaceBet]
      · refine ⟨?_, ?_, ⟨ActionError.tradeExecutionFailed, ?_⟩, ?_⟩ <;>
          simp [placeBet, dbGetUser, hg, hbal, acctBalance, acctTotalBets, handlePlaceBet,
            dbUpdateUser, betDebitState, getAcct_setUser_self]
  | none =>
      by_cases hbal : (0 : ℚ) < betAmount
      · refine ⟨?_, ?_, ⟨ActionError.insufficientBalance, ?_⟩, ?_⟩ <;>
          simp [placeBet, dbGetUser, hg, freshUser, hbal, acctBalance, acctTotalBets,
            handlePlaceBet, getAcct_setUser_self, dbUpdateUser, betDebitState]
      · refine ⟨?_, ?_, ⟨ActionError.tradeExecutionFailed, ?_⟩, ?_⟩ <;>
          simp [placeBet, dbGetUser, hg, freshUser, hbal, acctBalance, acctTotalBets,
            handlePlaceBet, getAcct_setUser_self, dbUpdateUser, betDebitState]

/-- C8: settling a won bet (`isWin = true`, `pnl > 0`) via `resolveBet`
increases the balance by exactly `principal + pnl` (the bet's recorded
amount plus the profit) and `totalWinnings` by exactly `pnl`; settling a
lost bet (`isWin = false`) leaves both unchanged — the collateral was
already debited at bet placement. -/
theorem resolveBet_settlement_amounts (db : DB) (addr betId : String) (pnl : ℚ)
    (closeOutcome : Bool) (now : ℤ) (u : UserBalance) (i : ℕ) (bet : UserBet)
    (hu : getAcct db addr = some u) (hfind : findBet u.bets betId = some (i, bet))
    (hres : bet.result = none) (hpnl : 0 < pnl) :
    (acctBalance (resolveBet db addr betId pnl true closeOutcome now).1 addr
        = u.balance + (bet.amount + pnl) ∧
      acctTotalWinnings (resolveBet db addr betId pnl true closeOutcome now).1 addr
        = u.totalWinnings + pnl) ∧
    (acctBalance (resolveBet db addr betId pnl false closeOutcome now).1 addr = u.balance ∧
      acctTotalWinnings (resolveBet db addr betId pnl false closeOutcome now).1 addr
        = u.totalWinnings) := by
  rw [resolveBet_result_fst hu hfind hres, resolveBet_result_fst hu hfind hres]
  simp [acctBalance, acctTotalWinnings, dbUpdateUser, getAcct_setUser_self, hpnl]

/-- The concrete unresolved bet for the C8 witness: collateral 10 at
leverage 35 (the spec's example scenario 3). -/
def c8Bet : UserBet :=
  { betId := "bet-9", amount := 10, timestamp := 0
    leverage := 35, direction := TradeDirection.long
    result := none, pnl := none, resolvedAt := none, txSignature := some "t" }

/-- The concrete account holding `c8Bet`, balance 50. -/
def c8User : UserBalance :=
  { walletAddress := "A", balance := 50, totalDeposits := 60
    totalWithdrawals := 0, totalBets := 10, totalWinnings := 0
    deposits := [], withdrawals := [], bets := [c8Bet], lastUpdated := 0 }

/-- Witness for C8, at the spec's example numbers: a 0.6% move at
leverage 35 on collateral 10 gives `pnl = 2.10`; settling the win
raises the balance by `12.10` (from 50 to 62.10) and `totalWinnings` by
`2.10`; settling the same bet as a loss leaves the balance at 50. -/
theorem resolveBet_settlement_amounts_witness :
    acctBalance (resolveBet [("A", c8User)] "A" "bet-9" (21/10) true true 9).1 "A"
        = 50 + (10 + 21/10) ∧
    acctTotalWinnings (resolveBet [("A", c8User)] "A" "bet-9" (21/10) true true 9).1 "A"
        = 21/10 ∧
    acctBalance (resolveBet [("A", c8User)] "A" "bet-9" (21/10) false true 9).1 "A" = 50 ∧
    calculateOptionsProfit 10 35 (6/1000) = 21/10 := by
  have h := resolveBet_settlement_amounts [("A", c8User)] "A" "bet-9" (21/10) true 9
    c8User 0 c8Bet rfl rfl rfl (by norm_num)
  refine ⟨?_, ?_, ?_, by norm_num [calculateOptionsProfit]⟩
  · simpa [c8User, c8Bet] using h.1.1
  · simpa [c8User, c8Bet] using h.1.2
  · simpa [c8User, c8Bet] using h.2.1

theorem ledgerInv_verifyDeposit {db : DB} (addr txSig : String) (expectedAmount : ℚ)
    (chain : ChainLookup) (now : ℤ) (hamt : 0 < expectedAmount) (h : LedgerInv db) :
    LedgerInv (verifyDeposit db addr txSig expectedAmount chain now).1 := by
  have hdb0 := ledgerInv_dbGetUser_snd addr now h
  have hgu := goodUser_dbGetUser_fst addr now h
  simp only [verifyDeposit]
  split_ifs with hdup
  · exact hdb0
  · cases chain with
    | txMissing => exact hdb0
    | noTransfer => exact hdb0
    | transfer actualAmount =>
        dsimp only
        split_ifs with htol
        · exact hdb0
        · apply ledgerInv_dbUpdateUser hdb0
          rw [not_lt] at htol
          have habs := abs_le.mp htol
          constructor
          · show 0 ≤ (dbGetUser db addr now).1.balance + actualAmount
            have h1 := hgu.1
            have h2 := habs.1
            nlinarith
          · show ∀ b ∈ (dbGetUser db addr now).1.bets, 0 ≤ b.amount
            exact hgu.2

theorem ledgerInv_betDebit {db : DB} (addr : String) (betAmount leverage : ℚ)
    (direction : TradeDirection) (betId : String) (now : ℤ) (hamt : 0 ≤ betAmount)
    (hsuf : ¬ (dbGetUser db addr now).1.balance < betAmount) (h : LedgerInv db) :
    LedgerInv (dbUpdateUser (dbGetUser db addr now).2 addr
      (betDebitState (dbGetUser db addr now).1 betAmount leverage direction betId now) now) := by
  have hgu := goodUser_dbGetUser_fst addr now h
  apply ledgerInv_dbUpdateUser (ledgerInv_dbGetUser_snd addr now h)
  rw [not_lt] at hsuf
  constructor
  · show 0 ≤ (dbGetUser db addr now).1.balance - betAmount
    linarith
  · intro b hb
    rw [show (betDebitState (dbGetUser db addr now).1 betAmount leverage direction betId
        now).bets = (dbGetUser db addr now).1.bets ++
          [{ betId := betId, amount := betAmount, timestamp := now, leverage := leverage
             direction := direction, result := none, pnl := none, resolvedAt := none
             txSignature := none }] from rfl, List.mem_append] at hb
    rcases hb with hmem | hnew
    · exact hgu.2 b hmem
    · rw [List.mem_singleton] at hnew
      rw [hnew]
      exact hamt

theorem ledgerInv_withdrawalDebit {db : DB} (addr : String) (amount : ℚ) (txId : String)
    (now : ℤ) (hsuf : ¬ (dbGetUser db addr now).1.balance < amount) (h : LedgerInv db) :
    LedgerInv (dbUpdateUser (dbGetUser db addr now).2 addr
      (withdrawalDebitState (dbGetUser db addr now).1 amount txId now) now) := by
  have hgu := goodUser_dbGetUser_fst addr now h
  apply ledgerInv_dbUpdateUser (ledgerInv_dbGetUser_snd addr now h)
  rw [not_lt] at hsuf
  constructor
  · show 0 ≤ (dbGetUser db addr now).1.balance - amount
    linarith
  · show ∀ b ∈ (dbGetUser db addr now).1.bets, 0 ≤ b.amount
    exact hgu.2

theorem ledgerInv_placeBet {db : DB} (addr : String) (betAmount targetPrice leverage : ℚ)
    (direction : TradeDirection) (tradeOutcome : Option String) (now : ℤ)
    (hamt : 0 ≤ betAmount) (h : LedgerInv db) :
    LedgerInv (placeBet db addr betAmount targetPrice leverage direction tradeOutcome now).1 := by
  have hdb0 := ledgerInv_dbGetUser_snd addr now h
  simp only [placeBet]
  split_ifs with hbal
  · exact hdb0
  · have hdb1 := ledgerInv_betDebit addr betAmount leverage direction
      ("bet-" ++ toString now) now hamt hbal h
    set db1 := dbUpdateUser (dbGetUser db addr now).2 addr
      (betDebitState (dbGetUser db addr now).1 betAmount leverage direction
        ("bet-" ++ toString now) now) now with hdb1def
    have hgu1 := goodUser_dbGetUser_fst addr now hdb1
    cases tradeOutcome with
    | some txSig =>
        dsimp only
        apply ledgerInv_dbUpdateUser (ledgerInv_dbGetUser_snd addr now hdb1)
        constructor
        · exact hgu1.1
        · intro b hb
          rw [show ({ (dbGetUser db1 addr now).1 with
              bets := (dbGetUser db1 addr now).1.bets.map fun b =>
                if b.betId = "bet-" ++ toString now then { b with txSignature := some txSig }
                else b } : UserBalance).bets = (dbGetUser db1 addr now).1.bets.map (fun b =>
                  if b.betId = "bet-" ++ toString now then { b with txSignature := some txSig }
                  else b) from rfl, List.mem_map] at hb
          obtain ⟨c, hc, hcb⟩ := hb
          have hca := hgu1.2 c hc
          by_cases hid : c.betId = "bet-" ++ toString now
          · rw [← hcb]
            simpa [hid] using hca
          · rw [← hcb]
            simpa [hid] using hca
    | none =>
        dsimp only
        apply ledgerInv_dbUpdateUser (ledgerInv_dbGetUser_snd addr now hdb1)
        constructor
        · show 0 ≤ (dbGetUser db1 addr now).1.balance + betAmount
          linarith [hgu1.1]
        · show ∀ b ∈ (dbGetUser db1 addr now).1.bets, 0 ≤ b.amount
          exact hgu1.2

theorem ledgerInv_requestWithdrawal {db : DB} (addr : String) (amount : ℚ)
    (transferOutcome : Option String) (now : ℤ) (h : LedgerInv db) :
    LedgerInv (requestWithdrawal db addr amount transferOutcome now).1 := by
  have hdb0 := ledgerInv_dbGetUser_snd addr now h
  simp only [requestWithdrawal]
  split_ifs with hbal
  · exact hdb0
  · have hdb1 := ledgerInv_withdrawalDebit addr amount
      ("withdrawal-" ++ toString now) now hbal h
    set db1 := dbUpdateUser (dbGetUser db addr now).2 addr
      (withdrawalDebitState (dbGetUser db addr now).1 amount
        ("withdrawal-" ++ toString now) now) now with hdb1def
    have hgu1 := goodUser_dbGetUser_fst addr now hdb1
    cases transferOutcome with
    | some txSig =>
        dsimp only
        apply ledgerInv_dbUpdateUser (ledgerInv_dbGetUser_snd addr now hdb1)
        constructor
        · exact hgu1.1
        · show ∀ b ∈ (dbGetUser db1 addr now).1.bets, 0 ≤ b.amount
          exact hgu1.2
    | none =>
        dsimp only
        apply ledgerInv_dbUpdateUser (ledgerInv_dbGetUser_snd addr now hdb1)
        constructor
        · show 0 ≤ (dbGetUser db1 addr now).1.balance + amount
          rw [not_lt] at hbal
          have hb0 := goodUser_dbGetUser_fst addr now h
          show 0 ≤ (dbGetUser db1 addr now).1.balance + amount
          have : (dbGetUser db1 addr now).1.balance
              = (dbGetUser db addr now).1.balance - amount := by
            rw [hdb1def]
            simp [dbGetUser, dbUpdateUser, getAcct_setUser_self, withdrawalDebitState]
          linarith [hb0.1]
        · show ∀ b ∈ (dbGetUser db1 addr now).1.bets, 0 ≤ b.amount
          exact hgu1.2

theorem ledgerInv_resolveBet {db : DB} (addr betId : String) (pnl : ℚ)
    (isWin closeOutcome : Bool) (now : ℤ) (h : LedgerInv db) :
    LedgerInv (resolveBet db addr betId pnl isWin closeOutcome now).1 := by
  have hdb0 := ledgerInv_dbGetUser_snd addr now h
  have hgu := goodUser_dbGetUser_fst addr now h
  simp only [resolveBet]
  cases hfind : findBet (dbGetUser db addr now).1.bets betId with
  | none => exact hdb0
  | some p =>
      obtain ⟨i, bet⟩ := p
      dsimp only
      by_cases hres : bet.result.isSome
      · rw [if_pos hres]
        exact hdb0
      · rw [if_neg hres]
        have hbamt := hgu.2 bet (findBet_mem hfind)
        have hrec : GoodUser
            { (dbGetUser db addr now).1 with
                balance :=
                  if isWin ∧ pnl > 0 then
                    (dbGetUser db addr now).1.balance + (bet.amount + pnl)
                  else (dbGetUser db addr now).1.balance
                totalWinnings :=
                  if isWin ∧ pnl > 0 then (dbGetUser db addr now).1.totalWinnings + pnl
                  else (dbGetUser db addr now).1.totalWinnings
                bets := (dbGetUser db addr now).1.bets.set i
                  { bet with
                      result := some (if isWin then BetResult.win else BetResult.loss)
                      pnl := some (if isWin then pnl else -bet.amount)
                      resolvedAt := some now } } := by
          constructor
          · dsimp only
            split_ifs with hw
            · linarith [hgu.1, hw.2]
            · exact hgu.1
          · intro b hb
            dsimp only at hb
            rcases List.mem_or_eq_of_mem_set hb with hmem | hnew
            · exact hgu.2 b hmem
            · rw [hnew]
              exact hbamt
        simp only [apply_ite Prod.fst, ite_self]
        exact ledgerInv_dbUpdateUser hdb0 hrec

/-- The users-map states reachable from the empty store through the
server actions with positive operation amounts and arbitrary external
outcomes — including the optimistic intermediate states in which a bet
or withdrawal debit has been persisted but the external call has not
yet returned. -/
inductive ReachableDB : DB → Prop where
  | start : ReachableDB []
  | deposit (db : DB) (addr txSig : String) (expectedAmount : ℚ) (chain : ChainLookup)
      (now : ℤ) (hamt : 0 < expectedAmount) (h : ReachableDB db) :
      ReachableDB (verifyDeposit db addr txSig expectedAmount chain now).1
  | bet (db : DB) (addr : String) (betAmount targetPrice leverage : ℚ)
      (direction : TradeDirection) (tradeOutcome : Option String) (now : ℤ)
      (hamt : 0 < betAmount) (h : ReachableDB db) :
      ReachableDB (placeBet db addr betAmount targetPrice leverage direction tradeOutcome now).1
  | betDebited (db : DB) (addr : String) (betAmount leverage : ℚ)
      (direction : TradeDirection) (now : ℤ) (hamt : 0 < betAmount)
      (hsuf : ¬ (dbGetUser db addr now).1.balance < betAmount) (h : ReachableDB db) :
      ReachableDB (dbUpdateUser (dbGetUser db addr now).2 addr
        (betDebitState (dbGetUser db addr now).1 betAmount leverage direction
          ("bet-" ++ toString now) now) now)
  | withdrawal (db : DB) (addr : String) (amount : ℚ) (transferOutcome : Option String)
      (now : ℤ) (hamt : 0 < amount) (h : ReachableDB db) :
      ReachableDB (requestWithdrawal db addr amount transferOutcome now).1
  | withdrawalDebited (db : DB) (addr : String) (amount : ℚ) (now : ℤ) (hamt : 0 < amount)
      (hsuf : ¬ (dbGetUser db addr now).1.balance < amount) (h : ReachableDB db) :
      ReachableDB (dbUpdateUser (dbGetUser db addr now).2 addr
        (withdrawalDebitState (dbGetUser db addr now).1 amount
          ("withdrawal-" ++ toString now) now) now)
  | resolve (db : DB) (addr betId : String) (pnl : ℚ) (isWin closeOutcome : Bool) (now : ℤ)
      (h : ReachableDB db) :
      ReachableDB (resolveBet db addr betId pnl isWin closeOutcome now).1

/-- Every reachable users map satisfies the ledger invariant. -/
theorem ledgerInv_of_reachable {db : DB} (h : ReachableDB db) : LedgerInv db := by
  induction h with
  | start => intro q hq; simp at hq
  | deposit db addr txSig expectedAmount chain now hamt h ih =>
      exact ledgerInv_verifyDeposit addr txSig expectedAmount chain now hamt ih
  | bet db addr betAmount targetPrice leverage direction tradeOutcome now hamt h ih =>
      exact ledgerInv_placeBet addr betAmount targetPrice leverage direction tradeOutcome now
        (le_of_lt hamt) ih
  | betDebited db addr betAmount leverage direction now hamt hsuf h ih =>
      exact ledgerInv_betDebit addr betAmount leverage direction _ now (le_of_lt hamt) hsuf ih
  | withdrawal db addr amount transferOutcome now hamt h ih =>
      exact ledgerInv_requestWithdrawal addr amount transferOutcome now ih
  | withdrawalDebited db addr amount now hamt hsuf h ih =>
      exact ledgerInv_withdrawalDebit addr amount _ now hsuf ih
  | resolve db addr betId pnl isWin closeOutcome now h ih =>
      exact ledgerInv_resolveBet addr betId pnl isWin closeOutcome now ih

/-- C4: starting from an empty store (every account is created fresh
with balance 0), any sequence of deposits, bet placements, bet
resolutions and withdrawals with positive amounts — whatever their
external outcomes, and including the optimistic intermediate debit
states — keeps every account's balance non-negative; and an operation
that would overdraw fails with the insufficient-balance error, leaving
the users map completely unchanged. -/
theorem reachable_balance_nonneg :
    (∀ db : DB, ReachableDB db → ∀ (addr : String) (u : UserBalance),
      getAcct db addr = some u → 0 ≤ u.balance) ∧
    (∀ (db : DB) (addr : String) (amount targetPrice leverage : ℚ)
        (direction : TradeDirection) (outcome : Option String) (now : ℤ) (u : UserBalance),
      getAcct db addr = some u → u.balance < amount →
      placeBet db addr amount targetPrice leverage direction outcome now
        = (db, Except.error ActionError.insufficientBalance)) ∧
    (∀ (db : DB) (addr : String) (amount : ℚ) (outcome : Option String) (now : ℤ)
        (u : UserBalance),
      getAcct db addr = some u → u.balance < amount →
      requestWithdrawal db addr amount outcome now
        = (db, Except.error ActionError.insufficientBalance)) := by
  refine ⟨?_, ?_, ?_⟩
  · intro db hreach addr u hu
    exact (ledgerInv_of_reachable hreach (addr, u) (getAcct_mem hu)).1
  · intro db addr amount targetPrice leverage direction outcome now u hu hbal
    simp only [placeBet, dbGetUser, hu]
    rw [if_pos hbal]
  · intro db addr amount outcome now u hu hbal
    simp only [requestWithdrawal, dbGetUser, hu]
    rw [if_pos hbal]

/-- Witness for C4: after a verified deposit of 100 into account `A`
followed by a bet placement of 30 whose external trade fails (so the
debit is refunded), the store is reachable and account `A` holds
balance 100 — non-negative, as the theorem demands. -/
theorem reachable_balance_nonneg_witness :
    ∃ u : UserBalance,
      getAcct (placeBet (verifyDeposit [] "A" "sig" 100 (ChainLookup.transfer 100) 1).1
          "A" 30 105 10 TradeDirection.long none 2).1 "A" = some u ∧
      0 ≤ u.balance ∧ u.balance = 100 := by
  have hreach : ReachableDB (placeBet (verifyDeposit [] "A" "sig" 100
      (ChainLookup.transfer 100) 1).1 "A" 30 105 10 TradeDirection.long none 2).1 :=
    ReachableDB.bet _ "A" 30 105 10 TradeDirection.long none 2 (by norm_num)
      (ReachableDB.deposit [] "A" "sig" 100 (ChainLookup.transfer 100) 1 (by norm_num)
        ReachableDB.start)
  cases hg : getAcct (placeBet (verifyDeposit [] "A" "sig" 100 (ChainLookup.transfer 100) 1).1
      "A" 30 105 10 TradeDirection.long none 2).1 "A" with
  | none =>
      norm_num [placeBet, verifyDeposit, dbGetUser, getAcct, setUser, dbUpdateUser,
        freshUser, betDebitState] at hg
      exact absurd hg (by simp)
  | some u =>
      refine ⟨u, rfl, reachable_balance_nonneg.1 _ hreach "A" u hg, ?_⟩
      have h2 := hg
      norm_num [placeBet, verifyDeposit, dbGetUser, getAcct, setUser, dbUpdateUser,
        freshUser, betDebitState] at h2
      rw [← h2]
